import Mathlib

set_option maxHeartbeats 1000000

/-!
Shallow embedding of the SpotifyTestApp secret-cache subsystem and genre
aggregator (src/file_handler.py, src/util.py, src/playlist_info.py).

Python dicts are modelled as association lists with unique keys (insertion
order preserved, as in CPython).  JSON values occurring in token records are
strings or integers.  The Fernet library (an external collaborator) is
modelled as an injective prefix-tagged encoding whose decrypt inverts encrypt
for the matching key and fails with an InvalidToken error otherwise.
-/

/-- JSON-like values occurring in token records (strings and integers). -/
inductive JVal where
  | vStr : String → JVal
  | vInt : Int → JVal
  deriving DecidableEq, Repr

/-- Fernet encryption: boundary model of `fernet_key.encrypt(v.encode()).decode()`.
Injective in the plaintext, tagged with the key. -/
def fernetEncrypt (key : Nat) (s : String) : String :=
  String.mk (("enc:" ++ toString key ++ ":").data ++ s.data)

/-- Fernet decryption: boundary model of `fernet_key.decrypt(v.encode()).decode()`.
Fails (InvalidToken) unless the input was produced by `fernetEncrypt` with the
same key. -/
def fernetDecrypt (key : Nat) (s : String) : Except String String :=
  let pre := ("enc:" ++ toString key ++ ":").data
  if pre.isPrefixOf s.data then .ok (String.mk (s.data.drop pre.length))
  else .error "InvalidToken"

theorem fernetDecrypt_fernetEncrypt (key : Nat) (s : String) :
    fernetDecrypt key (fernetEncrypt key s) = .ok s := by
  have h : (("enc:" ++ toString key ++ ":").data).isPrefixOf
      ((("enc:" ++ toString key ++ ":").data) ++ s.data) = true := by
    rw [List.isPrefixOf_iff_prefix]
    exact List.prefix_append _ _
  simp only [fernetDecrypt, fernetEncrypt, h, if_true, List.drop_left]

/-- A token record: a Python dict parsed from the token endpoint's JSON. -/
abbrev TokenRecord := List (String × JVal)

/-- Python `d[k]` lookup (first matching key; dicts have unique keys). -/
def lookupKey : TokenRecord → String → Option JVal
  | [], _ => none
  | (k', v) :: rest, k => if k' = k then some v else lookupKey rest k

/-- Python `d.pop(k)`: remove the entry for `k`, returning its value and the
remaining record; `none` models the KeyError when `k` is absent. -/
def popKey : TokenRecord → String → Option (JVal × TokenRecord)
  | [], _ => none
  | (k', v) :: rest, k =>
    if k' = k then some (v, rest)
    else (popKey rest k).map (fun p => (p.1, (k', v) :: p.2))

/-- Python `d[k] = v`: update in place when `k` is present, append otherwise. -/
def setKey : TokenRecord → String → JVal → TokenRecord
  | [], k, v => [(k, v)]
  | (k', v') :: rest, k, v =>
    if k' = k then (k, v) :: rest else (k', v') :: setKey rest k v

/-- `CustomCacheFileHandler.ATTRS_TO_ENCRYPT` (file_handler.py line 88). -/
def ATTRS_TO_ENCRYPT : List String := ["access_token", "refresh_token"]

/-- The encryption step of `save_token_to_cache` for one value: the source
tests `v in self.ATTRS_TO_ENCRYPT` — the VALUE against the attribute-name
tuple (file_handler.py line 112) — and encrypts only on a match.  Python `in`
on a tuple of strings is `False` for any non-string value. -/
def encVal (key : Nat) : JVal → JVal
  | .vStr s => if s ∈ ATTRS_TO_ENCRYPT then .vStr (fernetEncrypt key s) else .vStr s
  | v => v

/-- One entry of the dict comprehension in `save_token_to_cache`. -/
def encEntry (key : Nat) (kv : String × JVal) : String × JVal :=
  (kv.1, encVal key kv.2)

/-- One entry of the dict comprehension in `get_cached_token`
(file_handler.py line 127): again `v in self.ATTRS_TO_ENCRYPT` tests the
value; a decrypt call can raise InvalidToken, which propagates. -/
def decEntry (key : Nat) (kv : String × JVal) : Except String (String × JVal) :=
  match kv.2 with
  | .vStr s =>
    if s ∈ ATTRS_TO_ENCRYPT then (fernetDecrypt key s).map (fun d => (kv.1, .vStr d))
    else .ok kv
  | _ => .ok kv

/-- The dict comprehension of `get_cached_token`, entry by entry in order. -/
def decRecord (key : Nat) : TokenRecord → Except String TokenRecord
  | [] => .ok []
  | kv :: rest => do
    let e ← decEntry key kv
    let r ← decRecord key rest
    .ok (e :: r)

/-- State of the token-cache file: parsed content and modification time,
or `none` when the file does not exist. -/
structure CacheState where
  file : Option (TokenRecord × Int)
  deriving DecidableEq

/-- `CustomCacheFileHandler.REFRESH_INTERVAL` (file_handler.py line 90). -/
def REFRESH_INTERVAL : Int := 100

/-- `CustomCacheFileHandler.is_cache_fresh` (file_handler.py lines 97-105). -/
def is_cache_fresh (now : Int) (st : CacheState) : Bool :=
  match st.file with
  | some (_, mtime) => decide (now - mtime < REFRESH_INTERVAL)
  | none => false

/-- Result of `save_token_to_cache`: the cache state afterwards, and the key
of a KeyError when one was raised (raised before the file is opened, so the
state it carries is the untouched input state). -/
structure SaveOutcome where
  state : CacheState
  error : Option String
  deriving DecidableEq

/-- `CustomCacheFileHandler.save_token_to_cache` (file_handler.py lines
107-118): skip entirely when fresh; otherwise run the value-testing
encryption comprehension, `pop('expires_in')` (KeyError when absent, before
the file is opened), store the popped value under `expires_at`, and write
the record with the current time as modification time. -/
def save_token_to_cache (key : Nat) (now : Int) (st : CacheState)
    (tok : TokenRecord) : SaveOutcome :=
  if is_cache_fresh now st then ⟨st, none⟩
  else
    match popKey (tok.map (encEntry key)) "expires_in" with
    | none => ⟨st, some "expires_in"⟩
    | some (v, rest) => ⟨⟨some (setKey rest "expires_at" v, now)⟩, none⟩

/-- `CustomCacheFileHandler.get_cached_token` (file_handler.py lines 121-130). -/
def get_cached_token (key : Nat) (st : CacheState) :
    Except String (Option TokenRecord) :=
  match st.file with
  | some (r, _) => (decRecord key r).map some
  | none => .ok none

/-! Association-list lemmas for the dict operations. -/

theorem lookupKey_map_encEntry (key : Nat) (r : TokenRecord) (k : String) :
    lookupKey (r.map (encEntry key)) k = (lookupKey r k).map (encVal key) := by
  induction r with
  | nil => rfl
  | cons kv rest ih =>
    cases kv with
    | mk k' v =>
      by_cases h : k' = k
      · simp [lookupKey, encEntry, h]
      · simp [lookupKey, encEntry, h, ih]

theorem popKey_eq_none_iff (r : TokenRecord) (k : String) :
    popKey r k = none ↔ lookupKey r k = none := by
  induction r with
  | nil => simp [popKey, lookupKey]
  | cons kv rest ih =>
    cases kv with
    | mk k' v =>
      by_cases h : k' = k
      · simp [popKey, lookupKey, h]
      · simp only [popKey, lookupKey, h, if_false, if_neg h]
        rw [← ih]
        cases popKey rest k <;> simp

theorem popKey_of_lookupKey (r : TokenRecord) (k : String) (v : JVal)
    (h : lookupKey r k = some v) : ∃ rest, popKey r k = some (v, rest) := by
  induction r with
  | nil => simp [lookupKey] at h
  | cons kv rest ih =>
    cases kv with
    | mk k' v' =>
      by_cases hk : k' = k
      · simp only [lookupKey, hk, if_true, Option.some.injEq] at h
        subst h
        exact ⟨rest, by simp [popKey, hk]⟩
      · simp only [lookupKey, hk, if_false, if_neg hk] at h
        obtain ⟨rest', hr⟩ := ih h
        exact ⟨(k', v') :: rest', by simp [popKey, hk, hr]⟩

theorem lookupKey_setKey_self (r : TokenRecord) (k : String) (v : JVal) :
    lookupKey (setKey r k v) k = some v := by
  induction r with
  | nil => simp [setKey, lookupKey]
  | cons kv rest ih =>
    cases kv with
    | mk k' v' =>
      by_cases h : k' = k
      · simp [setKey, lookupKey, h]
      · simp [setKey, lookupKey, h, ih]

theorem lookupKey_setKey_ne (r : TokenRecord) (k k' : String) (v : JVal)
    (h : k ≠ k') : lookupKey (setKey r k v) k' = lookupKey r k' := by
  induction r with
  | nil => simp [setKey, lookupKey, h]
  | cons kv rest ih =>
    cases kv with
    | mk k'' v' =>
      by_cases hk : k'' = k
      · subst hk
        simp [setKey, lookupKey, h]
      · simp [setKey, lookupKey, hk, ih]

theorem popKey_lookup_rest_ne (r rest : TokenRecord) (k k' : String) (v : JVal)
    (hp : popKey r k = some (v, rest)) (h : k' ≠ k) :
    lookupKey rest k' = lookupKey r k' := by
  induction r generalizing rest with
  | nil => simp [popKey] at hp
  | cons kv tl ih =>
    obtain ⟨k'', v'⟩ := kv
    by_cases hk : k'' = k
    · subst hk
      simp only [popKey, if_true, Option.some.injEq, Prod.mk.injEq] at hp
      obtain ⟨rfl, rfl⟩ := hp
      simp only [lookupKey]
      rw [if_neg (fun hh => h hh.symm)]
    · simp only [popKey, if_neg hk] at hp
      cases hrec : popKey tl k with
      | none => rw [hrec] at hp; simp at hp
      | some p =>
        obtain ⟨pv, prest⟩ := p
        rw [hrec] at hp
        simp only [Option.map, Option.some.injEq, Prod.mk.injEq] at hp
        obtain ⟨rfl, hrest⟩ := hp
        subst hrest
        by_cases hkk : k'' = k'
        · simp [lookupKey, hkk]
        · simp only [lookupKey, if_neg hkk]
          exact ih prest hrec

theorem lookupKey_eq_none_of_not_mem (r : TokenRecord) (k : String)
    (h : k ∉ r.map Prod.fst) : lookupKey r k = none := by
  induction r with
  | nil => rfl
  | cons kv rest ih =>
    obtain ⟨k', v⟩ := kv
    simp only [List.map_cons, List.mem_cons] at h
    push_neg at h
    have hne : ¬ (k' = k) := fun hh => h.1 hh.symm
    simp only [lookupKey, if_neg hne]
    exact ih h.2

theorem popKey_rest_lookup_none_of_nodup (r rest : TokenRecord) (k : String)
    (v : JVal) (hnd : (r.map Prod.fst).Nodup)
    (hp : popKey r k = some (v, rest)) : lookupKey rest k = none := by
  induction r generalizing rest with
  | nil => simp [popKey] at hp
  | cons kv tl ih =>
    obtain ⟨k'', v'⟩ := kv
    simp only [List.map_cons, List.nodup_cons] at hnd
    by_cases hk : k'' = k
    · subst hk
      simp only [popKey, if_true, Option.some.injEq, Prod.mk.injEq] at hp
      obtain ⟨rfl, rfl⟩ := hp
      exact lookupKey_eq_none_of_not_mem _ _ hnd.1
    · simp only [popKey, if_neg hk] at hp
      cases hrec : popKey tl k with
      | none => rw [hrec] at hp; simp at hp
      | some p =>
        obtain ⟨pv, prest⟩ := p
        rw [hrec] at hp
        simp only [Option.map, Option.some.injEq, Prod.mk.injEq] at hp
        obtain ⟨rfl, hrest⟩ := hp
        subst hrest
        simp only [lookupKey, if_neg hk]
        exact ih prest hnd.2 hrec

theorem popKey_mem (r rest : TokenRecord) (k : String) (v : JVal)
    (hp : popKey r k = some (v, rest)) : (k, v) ∈ r := by
  induction r generalizing rest with
  | nil => simp [popKey] at hp
  | cons kv tl ih =>
    obtain ⟨k'', v'⟩ := kv
    by_cases hk : k'' = k
    · subst hk
      simp only [popKey, if_true, Option.some.injEq, Prod.mk.injEq] at hp
      obtain ⟨rfl, rfl⟩ := hp
      exact List.mem_cons_self _ _
    · simp only [popKey, if_neg hk] at hp
      cases hrec : popKey tl k with
      | none => rw [hrec] at hp; simp at hp
      | some p =>
        obtain ⟨pv, prest⟩ := p
        rw [hrec] at hp
        simp only [Option.map, Option.some.injEq, Prod.mk.injEq] at hp
        obtain ⟨rfl, hrest⟩ := hp
        exact List.mem_cons_of_mem _ (ih prest hrec)

theorem popKey_rest_sublist (r rest : TokenRecord) (k : String) (v : JVal)
    (hp : popKey r k = some (v, rest)) : ∀ kv, kv ∈ rest → kv ∈ r := by
  induction r generalizing rest with
  | nil => simp [popKey] at hp
  | cons kv tl ih =>
    obtain ⟨k'', v'⟩ := kv
    by_cases hk : k'' = k
    · subst hk
      simp only [popKey, if_true, Option.some.injEq, Prod.mk.injEq] at hp
      obtain ⟨rfl, rfl⟩ := hp
      exact fun kv h => List.mem_cons_of_mem _ h
    · simp only [popKey, if_neg hk] at hp
      cases hrec : popKey tl k with
      | none => rw [hrec] at hp; simp at hp
      | some p =>
        obtain ⟨pv, prest⟩ := p
        rw [hrec] at hp
        simp only [Option.map, Option.some.injEq, Prod.mk.injEq] at hp
        obtain ⟨rfl, hrest⟩ := hp
        subst hrest
        intro kv hm
        rcases List.mem_cons.1 hm with h1 | h2
        · exact h1 ▸ List.mem_cons_self _ _
        · exact List.mem_cons_of_mem _ (ih prest hrec _ h2)

theorem mem_setKey (r : TokenRecord) (k : String) (v : JVal) :
    ∀ kv, kv ∈ setKey r k v → kv ∈ r ∨ kv = (k, v) := by
  induction r with
  | nil => intro kv h; simp [setKey] at h; exact Or.inr h
  | cons p rest ih =>
    obtain ⟨k', v'⟩ := p
    intro kv h
    by_cases hk : k' = k
    · simp only [setKey, if_pos hk] at h
      rcases List.mem_cons.1 h with h1 | h2
      · exact Or.inr h1
      · exact Or.inl (List.mem_cons_of_mem _ h2)
    · simp only [setKey, if_neg hk] at h
      rcases List.mem_cons.1 h with h1 | h2
      · exact Or.inl (h1 ▸ List.mem_cons_self _ _)
      · rcases ih kv h2 with h3 | h4
        · exact Or.inl (List.mem_cons_of_mem _ h3)
        · exact Or.inr h4

/-- A value that the source's (buggy) membership test `v in ATTRS_TO_ENCRYPT`
accepts: a string equal to one of the two attribute names. -/
def isSensitiveVal : JVal → Bool
  | .vStr s => decide (s ∈ ATTRS_TO_ENCRYPT)
  | _ => false

theorem encEntry_id_of_not_sensitive (key : Nat) (kv : String × JVal)
    (h : isSensitiveVal kv.2 = false) : encEntry key kv = kv := by
  obtain ⟨k, v⟩ := kv
  cases v with
  | vStr s =>
    simp only [isSensitiveVal, decide_eq_false_iff_not] at h
    simp [encEntry, encVal, h]
  | vInt n => rfl

theorem decEntry_id_of_not_sensitive (key : Nat) (kv : String × JVal)
    (h : isSensitiveVal kv.2 = false) : decEntry key kv = .ok kv := by
  obtain ⟨k, v⟩ := kv
  cases v with
  | vStr s =>
    simp only [isSensitiveVal, decide_eq_false_iff_not] at h
    simp [decEntry, h]
  | vInt n => rfl

theorem decRecord_id (key : Nat) (r : TokenRecord)
    (h : ∀ kv ∈ r, isSensitiveVal kv.2 = false) : decRecord key r = .ok r := by
  induction r with
  | nil => rfl
  | cons kv rest ih =>
    have h1 : decEntry key kv = .ok kv :=
      decEntry_id_of_not_sensitive key kv (h kv (List.mem_cons_self _ _))
    have h2 : decRecord key rest = .ok rest :=
      ih (fun p hp => h p (List.mem_cons_of_mem _ hp))
    simp only [decRecord, h1, h2]
    rfl

/-! The claims about the token cache. -/

/-- C1 (code bug): the claim says `save_token_to_cache` writes the values of
exactly the fields named `access_token` and `refresh_token` encrypted and
`get_cached_token` decrypts exactly those two fields.  The source instead
tests the VALUE against `ATTRS_TO_ENCRYPT` (`if v in self.ATTRS_TO_ENCRYPT`,
lines 112 and 127), so an ordinary token is written in clear text and an
encrypted on-disk token is returned still encrypted.  This theorem evaluates
the embedded code on such inputs. -/
theorem C1_sensitive_fields_stored_clear :
    (save_token_to_cache 0 1000 ⟨none⟩
        [("access_token", .vStr "tok123"), ("refresh_token", .vStr "ref456"),
         ("expires_in", .vInt 3600)]).state.file =
      some ([("access_token", .vStr "tok123"), ("refresh_token", .vStr "ref456"),
             ("expires_at", .vInt 3600)], 1000)
    ∧ get_cached_token 0 ⟨some ([("access_token", .vStr "enc:0:tok123"),
        ("expires_at", .vInt 3600)], 0)⟩ =
      .ok (some [("access_token", .vStr "enc:0:tok123"),
        ("expires_at", .vInt 3600)]) := by
  exact ⟨by decide, rfl⟩

/-- C2: when the cache file exists and now − mtime is below the refresh
interval, `save_token_to_cache` performs no write and raises nothing (the
on-disk content and modification time stay exactly as the previous write
left them); `is_cache_fresh` is a function of file existence and
modification time only (its value ignores the file content) and is false
when the file does not exist. -/
theorem C2_freshness_gate (key : Nat) (now : Int) (st : CacheState)
    (tok : TokenRecord) :
    (∀ c mt, st.file = some (c, mt) → now - mt < REFRESH_INTERVAL →
      save_token_to_cache key now st tok = ⟨st, none⟩)
    ∧ (∀ c c' mt, is_cache_fresh now ⟨some (c, mt)⟩ =
        is_cache_fresh now ⟨some (c', mt)⟩)
    ∧ is_cache_fresh now ⟨none⟩ = false := by
  refine ⟨?_, ?_, rfl⟩
  · intro c mt hf hlt
    have hfresh : is_cache_fresh now st = true := by
      simp [is_cache_fresh, hf, hlt]
    simp [save_token_to_cache, hfresh]
  · intro c c' mt
    simp [is_cache_fresh]

/-- Witness for C2 at a concrete fresh state. -/
theorem C2_freshness_gate_witness :
    save_token_to_cache 0 50 ⟨some ([("scope", .vStr "x")], 0)⟩
      [("expires_in", .vInt 1)] = ⟨⟨some ([("scope", .vStr "x")], 0)⟩, none⟩ :=
  (C2_freshness_gate 0 50 ⟨some ([("scope", .vStr "x")], 0)⟩
    [("expires_in", .vInt 1)]).1 [("scope", .vStr "x")] 0 rfl (by decide)

/-- C3: a token record carrying `expires_in` (an integer duration, per the
spec's data model) saved on a non-fresh cache is written with the field
`expires_at` holding the incoming `expires_in` value unconverted, and with
no `expires_in` field. -/
theorem C3_expires_renamed_unconverted (key : Nat) (now : Int)
    (st : CacheState) (tok : TokenRecord) (n : Int)
    (hf : is_cache_fresh now st = false)
    (hnd : (tok.map Prod.fst).Nodup)
    (he : lookupKey tok "expires_in" = some (.vInt n)) :
    ∃ r, save_token_to_cache key now st tok = ⟨⟨some (r, now)⟩, none⟩
      ∧ lookupKey r "expires_at" = some (.vInt n)
      ∧ lookupKey r "expires_in" = none := by
  have henc : lookupKey (tok.map (encEntry key)) "expires_in" = some (.vInt n) := by
    rw [lookupKey_map_encEntry, he]; rfl
  obtain ⟨rest, hpop⟩ := popKey_of_lookupKey _ _ _ henc
  have hndenc : ((tok.map (encEntry key)).map Prod.fst).Nodup := by
    have : (tok.map (encEntry key)).map Prod.fst = tok.map Prod.fst := by
      simp [encEntry, Function.comp]
    rw [this]; exact hnd
  refine ⟨setKey rest "expires_at" (.vInt n), ?_, ?_, ?_⟩
  · simp [save_token_to_cache, hf, hpop]
  · exact lookupKey_setKey_self _ _ _
  · rw [lookupKey_setKey_ne _ _ _ _ (by decide)]
    exact popKey_rest_lookup_none_of_nodup _ _ _ _ hndenc hpop

/-- Witness for C3 at a concrete stale state and record. -/
theorem C3_expires_renamed_unconverted_witness :
    ∃ r, save_token_to_cache 0 500 ⟨none⟩
        [("access_token", .vStr "a"), ("expires_in", .vInt 3600)] =
        ⟨⟨some (r, 500)⟩, none⟩
      ∧ lookupKey r "expires_at" = some (.vInt 3600)
      ∧ lookupKey r "expires_in" = none :=
  C3_expires_renamed_unconverted 0 500 ⟨none⟩
    [("access_token", .vStr "a"), ("expires_in", .vInt 3600)] 3600
    rfl (by decide) (by decide)

/-- C10: saving a token record that lacks `expires_in` on a non-fresh cache
raises a KeyError naming `expires_in`, and the cache file is left unchanged,
the error being raised by `pop` before the file is opened for writing. -/
theorem C10_missing_expires_in_raises (key : Nat) (now : Int) (st : CacheState)
    (tok : TokenRecord) (hf : is_cache_fresh now st = false)
    (he : lookupKey tok "expires_in" = none) :
    save_token_to_cache key now st tok = ⟨st, some "expires_in"⟩ := by
  have h1 : lookupKey (tok.map (encEntry key)) "expires_in" = none := by
    rw [lookupKey_map_encEntry, he]; rfl
  have h2 : popKey (tok.map (encEntry key)) "expires_in" = none :=
    (popKey_eq_none_iff _ _).2 h1
  simp [save_token_to_cache, hf, h2]

/-- Witness for C10 at a concrete record without `expires_in`. -/
theorem C10_missing_expires_in_raises_witness :
    save_token_to_cache 0 0 ⟨none⟩ [("scope", .vStr "s")] =
      ⟨⟨none⟩, some "expires_in"⟩ :=
  C10_missing_expires_in_raises 0 0 ⟨none⟩ [("scope", .vStr "s")] rfl rfl

theorem map_encEntry_id (key : Nat) (r : TokenRecord)
    (h : ∀ kv ∈ r, isSensitiveVal kv.2 = false) : r.map (encEntry key) = r := by
  induction r with
  | nil => rfl
  | cons kv rest ih =>
    simp only [List.map_cons]
    rw [encEntry_id_of_not_sensitive key kv (h kv (List.mem_cons_self _ _)),
      ih (fun p hp => h p (List.mem_cons_of_mem _ hp))]

/-- C4 (counterexample): the claim says save-then-get leaves every field
other than the two secrets unchanged in name and value, for every token
record.  On this record the incoming `expires_in` field comes back renamed
to `expires_at`, so the round-tripped record has no `expires_in` field at
all. -/
theorem C4_roundtrip_counterexample :
    get_cached_token 0 (save_token_to_cache 0 0 ⟨none⟩
        [("access_token", .vStr "a"), ("refresh_token", .vStr "r"),
         ("expires_in", .vInt 3600), ("scope", .vStr "s")]).state =
      .ok (some [("access_token", .vStr "a"), ("refresh_token", .vStr "r"),
        ("scope", .vStr "s"), ("expires_at", .vInt 3600)])
    ∧ lookupKey [("access_token", .vStr "a"), ("refresh_token", .vStr "r"),
        ("scope", .vStr "s"), ("expires_at", .vInt 3600)] "expires_in" = none
    ∧ lookupKey [("access_token", .vStr "a"), ("refresh_token", .vStr "r"),
        ("expires_in", .vInt 3600), ("scope", .vStr "s")] "expires_in" =
        some (.vInt 3600) :=
  ⟨rfl, rfl, rfl⟩

/-- C4 (amended): for a token record containing `expires_in`, saved on a
stale or nonexistent cache, with no field value equal to a literal attribute
name (the value-testing encryption leaves such records untouched, see C1),
`get_cached_token` after `save_token_to_cache` returns the original record
except that `expires_in` has become `expires_at` with the same value:
`access_token` and `refresh_token` equal the originals, every field other
than `expires_in`/`expires_at` is unchanged, `expires_at` holds the old
`expires_in` value, and `expires_in` is gone. -/
theorem C4_roundtrip_amended (key : Nat) (now : Int) (st : CacheState)
    (tok rest : TokenRecord) (w : JVal)
    (hf : is_cache_fresh now st = false)
    (hnd : (tok.map Prod.fst).Nodup)
    (hpop : popKey tok "expires_in" = some (w, rest))
    (hval : ∀ kv ∈ tok, isSensitiveVal kv.2 = false) :
    get_cached_token key (save_token_to_cache key now st tok).state =
      .ok (some (setKey rest "expires_at" w))
    ∧ (∀ k, k ≠ "expires_in" → k ≠ "expires_at" →
        lookupKey (setKey rest "expires_at" w) k = lookupKey tok k)
    ∧ lookupKey (setKey rest "expires_at" w) "expires_at" = some w
    ∧ lookupKey (setKey rest "expires_at" w) "expires_in" = none := by
  have hmap : tok.map (encEntry key) = tok := map_encEntry_id key tok hval
  have hsave : save_token_to_cache key now st tok =
      ⟨⟨some (setKey rest "expires_at" w, now)⟩, none⟩ := by
    simp [save_token_to_cache, hf, hmap, hpop]
  have hvalset : ∀ kv ∈ setKey rest "expires_at" w, isSensitiveVal kv.2 = false := by
    intro kv hm
    rcases mem_setKey rest "expires_at" w kv hm with h1 | h2
    · exact hval kv (popKey_rest_sublist tok rest "expires_in" w hpop kv h1)
    · subst h2
      exact hval ("expires_in", w) (popKey_mem tok rest "expires_in" w hpop)
  refine ⟨?_, ?_, lookupKey_setKey_self _ _ _, ?_⟩
  · rw [hsave]
    simp only [get_cached_token, decRecord_id key _ hvalset]
    rfl
  · intro k h1 h2
    rw [lookupKey_setKey_ne _ _ _ _ (fun hh => h2 hh.symm)]
    exact popKey_lookup_rest_ne tok rest "expires_in" k w hpop h1
  · rw [lookupKey_setKey_ne _ _ _ _ (by decide)]
    exact popKey_rest_lookup_none_of_nodup tok rest "expires_in" w hnd hpop

/-- Witness for C4 (amended) at a concrete record. -/
theorem C4_roundtrip_amended_witness :
    get_cached_token 0 (save_token_to_cache 0 0 ⟨none⟩
        [("access_token", .vStr "a"), ("expires_in", .vInt 7)]).state =
      .ok (some (setKey [("access_token", .vStr "a")] "expires_at" (.vInt 7))) :=
  (C4_roundtrip_amended 0 0 ⟨none⟩
    [("access_token", .vStr "a"), ("expires_in", .vInt 7)]
    [("access_token", .vStr "a")] (.vInt 7) rfl (by decide) (by decide)
    (by
      intro kv h
      simp only [List.mem_cons, List.not_mem_nil, or_false] at h
      rcases h with rfl | rfl <;> decide)).1

/-! The credential store (file_handler.py, CredentialsFileHandler). -/

/-- A credentials record: a Python dict of string fields. -/
abbrev CredRecord := List (String × String)

/-- Python `d[k]` lookup on a credentials record. -/
def lookupCred : CredRecord → String → Option String
  | [], _ => none
  | (k', v) :: rest, k => if k' = k then some v else lookupCred rest k

/-- State of the credentials file: parsed content, or `none` when the file
does not exist (or holds undecodable JSON, which the source treats the same
way). -/
structure CredState where
  file : Option (List (String × String))
  deriving DecidableEq

/-- `CredentialsFileHandler.save_credentials_to_file` (file_handler.py lines
69-75): encrypt each field value independently and overwrite the file. -/
def save_credentials_to_file (key : Nat) (st : CredState)
    (creds : CredRecord) : CredState :=
  ⟨some (creds.map (fun kv => (kv.1, fernetEncrypt key kv.2)))⟩

/-- The dict comprehension of `retrieve_credentials`: decrypt every value;
a decrypt failure propagates (the comprehension raises before `credentials`
is bound, so the `finally` block then raises on the unbound local). -/
def decCreds (key : Nat) : List (String × String) →
    Except String (List (String × String))
  | [] => .ok []
  | kv :: rest => do
    let d ← fernetDecrypt key kv.2
    let r ← decCreds key rest
    .ok ((kv.1, d) :: r)

/-- `CredentialsFileHandler.retrieve_credentials` (file_handler.py lines
54-67): missing or undecodable file yields `none`; otherwise every field
value is decrypted with the key. -/
def retrieve_credentials (key : Nat) (st : CredState) :
    Except String (Option CredRecord) :=
  match st.file with
  | none => .ok none
  | some data =>
    match decCreds key data with
    | .ok c => .ok (some c)
    | .error e => .error e

theorem decCreds_map_encrypt (key : Nat) (creds : CredRecord) :
    decCreds key (creds.map (fun kv => (kv.1, fernetEncrypt key kv.2))) =
      .ok creds := by
  induction creds with
  | nil => rfl
  | cons kv rest ih =>
    simp only [List.map_cons, decCreds, fernetDecrypt_fernetEncrypt, ih]
    rfl

/-- C5: for a credentials record whose `client_id` and `client_secret` are
non-empty strings, `save_credentials_to_file` followed by
`retrieve_credentials` returns a record equal to the one saved. -/
theorem C5_credentials_roundtrip (key : Nat) (st : CredState)
    (creds : CredRecord) (cid cs : String)
    (hid : lookupCred creds "client_id" = some cid) (hid' : cid ≠ "")
    (hcs : lookupCred creds "client_secret" = some cs) (hcs' : cs ≠ "") :
    retrieve_credentials key (save_credentials_to_file key st creds) =
      .ok (some creds) := by
  simp [retrieve_credentials, save_credentials_to_file, decCreds_map_encrypt]

/-- Witness for C5 at a concrete credentials record. -/
theorem C5_credentials_roundtrip_witness :
    retrieve_credentials 5 (save_credentials_to_file 5 ⟨none⟩
        [("client_id", "abc"), ("client_secret", "xyz")]) =
      .ok (some [("client_id", "abc"), ("client_secret", "xyz")]) :=
  C5_credentials_roundtrip 5 ⟨none⟩
    [("client_id", "abc"), ("client_secret", "xyz")] "abc" "xyz"
    rfl (by decide) rfl (by decide)

/-! The key provider (util.py, get_fernet_key). -/

/-- State of the key file `../cache/keys/spotify.key` and of its parent
directory. -/
structure KeyFS where
  keyFile : Option Nat
  dirExists : Bool
  deriving DecidableEq

/-- `get_fernet_key` (util.py lines 158-172): read and wrap the key file's
bytes when the file exists; otherwise generate a fresh key (`newKey` models
`Fernet.generate_key()`) and write it with `open(key_file, 'wb')` — which
raises FileNotFoundError when the parent directory is missing; the source
contains no directory creation. -/
def get_fernet_key (newKey : Nat) (fs : KeyFS) : Except String (Nat × KeyFS) :=
  match fs.keyFile with
  | some bytes => .ok (bytes, fs)
  | none =>
    if fs.dirExists then .ok (newKey, ⟨some newKey, true⟩)
    else .error "FileNotFoundError"

/-- C9 (counterexample): the claim says a missing key file leads to the key
being generated and written, creating parent directories as needed.  With
the key file and its parent directory both absent, the code instead raises
FileNotFoundError: no directory is created, no key is returned. -/
theorem C9_key_counterexample :
    get_fernet_key 7 ⟨none, false⟩ = .error "FileNotFoundError" := rfl

/-- C9 (amended): when the key file exists its raw bytes are returned as the
key and nothing is written; when it is missing but the parent directory
exists, a new key is generated, written and returned; when the directory is
also missing the call fails with FileNotFoundError (no directory creation);
and any successful call leaves a state from which repeated calls return the
same key, which decrypts everything encrypted with it. -/
theorem C9_key_provider_amended (newKey : Nat) (fs : KeyFS) :
    (∀ bytes, fs.keyFile = some bytes → get_fernet_key newKey fs = .ok (bytes, fs))
    ∧ (fs.keyFile = none → fs.dirExists = true →
        get_fernet_key newKey fs = .ok (newKey, ⟨some newKey, true⟩))
    ∧ (fs.keyFile = none → fs.dirExists = false →
        get_fernet_key newKey fs = .error "FileNotFoundError")
    ∧ (∀ k fs', get_fernet_key newKey fs = .ok (k, fs') →
        (∀ newKey2, get_fernet_key newKey2 fs' = .ok (k, fs'))
        ∧ ∀ s, fernetDecrypt k (fernetEncrypt k s) = .ok s) := by
  refine ⟨?_, ?_, ?_, ?_⟩
  · intro bytes hb
    simp [get_fernet_key, hb]
  · intro hn hd
    simp [get_fernet_key, hn, hd]
  · intro hn hd
    simp [get_fernet_key, hn, hd]
  · intro k fs' hok
    cases hb : fs.keyFile with
    | some bytes =>
      simp only [get_fernet_key, hb, Except.ok.injEq, Prod.mk.injEq] at hok
      obtain ⟨rfl, rfl⟩ := hok
      exact ⟨fun newKey2 => by simp [get_fernet_key, hb],
        fernetDecrypt_fernetEncrypt _⟩
    | none =>
      cases hd : fs.dirExists with
      | true =>
        simp only [get_fernet_key, hb, hd, if_true, Except.ok.injEq,
          Prod.mk.injEq] at hok
        obtain ⟨rfl, rfl⟩ := hok
        exact ⟨fun newKey2 => by simp [get_fernet_key],
          fernetDecrypt_fernetEncrypt _⟩
      | false =>
        simp [get_fernet_key, hb, hd] at hok

/-- Witness for C9 (amended) at a missing key file with an existing
directory. -/
theorem C9_key_provider_amended_witness :
    get_fernet_key 7 ⟨none, true⟩ = .ok (7, ⟨some 7, true⟩) :=
  (C9_key_provider_amended 7 ⟨none, true⟩).2.1 rfl rfl

/-! The playlist-ID extractor (playlist_info.py, MainCanvas.extract_playlist_id). -/

/-- The character class `[A-Za-z0-9]` of the bare-ID regex. -/
def isAlnumChar (c : Char) : Bool := c.isAlpha || c.isDigit

/-- The character class `\w` of the URL regex (ASCII word characters; the
inputs in play are ASCII). -/
def isWordChar (c : Char) : Bool := c.isAlpha || c.isDigit || c == '_'

/-- `re.match` against `^(spotify:playlist:)?[A-Za-z0-9]+$` (playlist_info.py
line 172): the whole string is one or more alphanumerics, optionally behind
the literal prefix `spotify:playlist:`. -/
def matchesIdPat (s : String) : Bool :=
  (!s.data.isEmpty && s.data.all isAlnumChar)
  || ("spotify:playlist:".data.isPrefixOf s.data
      && !((s.data.drop ("spotify:playlist:".data.length)).isEmpty)
      && (s.data.drop ("spotify:playlist:".data.length)).all isAlnumChar)

/-- `re.match` against `^https://open\.spotify\.com/playlist/(\w+)`
(playlist_info.py line 170): unanchored at the end; the captured group is
the longest run of word characters after the literal prefix (greedy `\w+`),
and the match fails when that run is empty. -/
def matchUrlPat (s : String) : Option String :=
  if ("https://open.spotify.com/playlist/".data).isPrefixOf s.data then
    let grp := (s.data.drop ("https://open.spotify.com/playlist/".data.length)).takeWhile
      isWordChar
    if grp.isEmpty then none else some (String.mk grp)
  else none

/-- `MainCanvas.extract_playlist_id` (playlist_info.py lines 160-182):
bare-ID pattern first (input returned unchanged), then the URL pattern
(captured group returned), else a ValueError naming the offending string. -/
def extract_playlist_id (s : String) : Except String String :=
  if matchesIdPat s then .ok s
  else
    match matchUrlPat s with
    | some gid => .ok gid
    | none => .error ("Invalid playlist URL or playlist ID: " ++ s)

/-- C6: `extract_playlist_id` checks the bare-ID pattern first and returns
the input unchanged on a match; otherwise returns the group captured by the
playlist-URL pattern; otherwise fails with an invalid-input error whose
message names the offending string; and the three concrete examples behave
as the spec states. -/
theorem C6_extract_playlist_id_order :
    (∀ s, matchesIdPat s = true → extract_playlist_id s = .ok s)
    ∧ (∀ s g, matchesIdPat s = false → matchUrlPat s = some g →
        extract_playlist_id s = .ok g)
    ∧ (∀ s, matchesIdPat s = false → matchUrlPat s = none →
        extract_playlist_id s =
          .error ("Invalid playlist URL or playlist ID: " ++ s))
    ∧ extract_playlist_id "https://open.spotify.com/playlist/37i9dQZF1DXcBWIGoYBM5M" =
        .ok "37i9dQZF1DXcBWIGoYBM5M"
    ∧ extract_playlist_id "37i9dQZF1DXcBWIGoYBM5M" = .ok "37i9dQZF1DXcBWIGoYBM5M"
    ∧ extract_playlist_id "not a url" =
        .error "Invalid playlist URL or playlist ID: not a url" := by
  refine ⟨?_, ?_, ?_, rfl, rfl, rfl⟩
  · intro s h
    simp [extract_playlist_id, h]
  · intro s g h1 h2
    simp [extract_playlist_id, h1, h2]
  · intro s h1 h2
    simp [extract_playlist_id, h1, h2]

/-- Witness for C6 at concrete inputs for each hypothesis-bearing branch. -/
theorem C6_extract_playlist_id_order_witness :
    extract_playlist_id "spotify:playlist:abc123" = .ok "spotify:playlist:abc123" :=
  C6_extract_playlist_id_order.1 "spotify:playlist:abc123" (by decide)

/-! The genre aggregator (playlist_info.py, MainCanvas).  The API client is
modelled at its boundary: a playlist is the list of its tracks, each track
the list of its artists' ids; `playlist_tracks(id, offset, limit)` returns
the slice `tracks[offset:offset+limit]` with a next-page signal present iff
`offset+limit < total`, and `total`; `artists(batch)` returns one artist
object per requested id, carrying that artist's genre list. -/

/-- A `collections.Counter`: insertion-ordered mapping to counts. -/
abbrev Counter := List (String × Nat)

/-- `Counter.__getitem__`: 0 for a missing key, no insertion. -/
def cLookup : Counter → String → Nat
  | [], _ => 0
  | (k', n) :: rest, k => if k' = k then n else cLookup rest k

/-- `c[k] += n`: update in place when present, append `(k, n)` otherwise. -/
def bumpBy : Counter → String → Nat → Counter
  | [], k, n => [(k, n)]
  | (k', m) :: rest, k, n =>
    if k' = k then (k', m + n) :: rest else (k', m) :: bumpBy rest k n

/-- `artists[artist_id] += 1` (playlist_info.py line 132). -/
def bump (c : Counter) (k : String) : Counter := bumpBy c k 1

/-- The inner loop over `track['track']['artists']` for one track. -/
def processTrack (c : Counter) (t : List String) : Counter := t.foldl bump c

/-- The loop over `results['items']` for one page. -/
def processPage (c : Counter) (pg : List (List String)) : Counter :=
  pg.foldl processTrack c

/-- The `while True` pagination loop of `get_artist_counts` (playlist_info.py
lines 127-135), with fuel for structural recursion and an instrumented count
of `playlist_tracks` calls.  One page is fetched per iteration; the loop
ends when the next-page signal is absent, i.e. when
`offset + limit ≥ total`. -/
def get_artist_counts_loop :
    Nat → List (List String) → Nat → Counter → Nat → Option (Counter × Nat)
  | 0, _, _, _, _ => none
  | fuel + 1, all, offset, acc, calls =>
    let items := (all.drop offset).take 100
    let acc2 := processPage acc items
    if offset + 100 < all.length then
      get_artist_counts_loop fuel all (offset + 100) acc2 (calls + 1)
    else some (acc2, calls + 1)

/-- `MainCanvas.get_artist_counts` (playlist_info.py lines 122-137), paired
with the number of listing calls it issues.  The fuel is sufficient, as
proved below, so the `none` case never arises: the loop terminates whenever
the source signals pages correctly. -/
def get_artist_counts (all : List (List String)) : Option (Counter × Nat) :=
  get_artist_counts_loop (all.length / 100 + 1) all 0 [] 0

/-- The batches `artist_ids[i:i+batch_size]` of `range(0, len, 50)`, fueled. -/
def chunksOfAux : Nat → List String → List (List String)
  | 0, _ => []
  | _, [] => []
  | fuel + 1, x :: xs => ((x :: xs).take 50) :: chunksOfAux fuel ((x :: xs).drop 50)

/-- Batching of the distinct artist ids, 50 per batch (playlist_info.py
lines 142-145). -/
def chunksOf (l : List String) : List (List String) := chunksOfAux l.length l

/-- `MainCanvas.get_genre_counts` (playlist_info.py lines 139-154): for each
batch of artist ids, for each returned artist object, add the artist's
play-count to every one of its genre tags. -/
def get_genre_counts (details : String → List String) (artists : Counter) :
    Counter :=
  (chunksOf (artists.map Prod.fst)).foldl
    (fun g batch => batch.foldl
      (fun g2 aid => (details aid).foldl
        (fun g3 genre => bumpBy g3 genre (cLookup artists aid)) g2) g)
    []

/-- `MainCanvas.get_track_total` (playlist_info.py lines 156-158):
`results['total']` of an unpaginated listing call. -/
def get_track_total (all : List (List String)) : Nat := all.length

/-- `MainCanvas.get_combined_genres` (playlist_info.py lines 115-120). -/
def get_combined_genres (details : String → List String)
    (all : List (List String)) : Option (Counter × Nat) :=
  match get_artist_counts all with
  | some (artists, _) => some (get_genre_counts details artists, get_track_total all)
  | none => none

/-- Number of loop iterations as a function of the remaining track count. -/
def callsFor (d : Nat) : Nat :=
  if h : 100 < d then 1 + callsFor (d - 100) else 1
termination_by d
decreasing_by omega

/-- Total multiplicity held by a Counter. -/
def counterTotal (c : Counter) : Nat := (c.map Prod.snd).sum

theorem cLookup_bumpBy (c : Counter) (k : String) (n : Nat) (k' : String) :
    cLookup (bumpBy c k n) k' = cLookup c k' + (if k = k' then n else 0) := by
  induction c with
  | nil =>
    by_cases h : k = k'
    · simp [bumpBy, cLookup, h]
    · simp [bumpBy, cLookup, h]
  | cons p rest ih =>
    obtain ⟨pk, pm⟩ := p
    by_cases h1 : pk = k
    · subst h1
      by_cases h2 : pk = k'
      · simp [bumpBy, cLookup, h2]
      · simp [bumpBy, cLookup, h2]
    · by_cases h2 : pk = k'
      · subst h2
        have hne : ¬ (k = pk) := fun hh => h1 hh.symm
        simp [bumpBy, cLookup, h1, hne]
      · simp [bumpBy, cLookup, h1, h2, ih]

theorem cLookup_processTrack (c : Counter) (t : List String) (a : String) :
    cLookup (processTrack c t) a = cLookup c a + t.count a := by
  induction t generalizing c with
  | nil => simp [processTrack]
  | cons x xs ih =>
    show cLookup (processTrack (bump c x) xs) a = _
    rw [ih, bump, cLookup_bumpBy]
    rw [List.count_cons]
    by_cases h : x = a
    · simp [h]
      omega
    · have hne : ¬ (a = x) := fun hh => h hh.symm
      have hb : (a == x) = false := by
        simp [hne]
      simp [h, hb]

theorem cLookup_processPage (c : Counter) (pg : List (List String)) (a : String) :
    cLookup (processPage c pg) a =
      cLookup c a + (pg.map (fun t => t.count a)).sum := by
  induction pg generalizing c with
  | nil => simp [processPage]
  | cons t ts ih =>
    show cLookup (processPage (processTrack c t) ts) a = _
    rw [ih, cLookup_processTrack]
    simp
    omega

theorem counterTotal_bumpBy (c : Counter) (k : String) (n : Nat) :
    counterTotal (bumpBy c k n) = counterTotal c + n := by
  induction c with
  | nil => simp [bumpBy, counterTotal]
  | cons p rest ih =>
    obtain ⟨pk, pm⟩ := p
    by_cases h : pk = k
    · simp [bumpBy, h, counterTotal]
      omega
    · simp only [bumpBy, if_neg h, counterTotal, List.map_cons, List.sum_cons]
      have := ih
      simp only [counterTotal] at this
      omega

theorem counterTotal_processTrack (c : Counter) (t : List String) :
    counterTotal (processTrack c t) = counterTotal c + t.length := by
  induction t generalizing c with
  | nil => simp [processTrack]
  | cons x xs ih =>
    show counterTotal (processTrack (bump c x) xs) = _
    rw [ih, bump, counterTotal_bumpBy]
    simp
    omega

theorem counterTotal_processPage (c : Counter) (pg : List (List String)) :
    counterTotal (processPage c pg) =
      counterTotal c + (pg.map List.length).sum := by
  induction pg generalizing c with
  | nil => simp [processPage]
  | cons t ts ih =>
    show counterTotal (processPage (processTrack c t) ts) = _
    rw [ih, counterTotal_processTrack]
    simp
    omega

theorem get_artist_counts_loop_succ (fuel : Nat) (all : List (List String))
    (offset : Nat) (acc : Counter) (calls : Nat) :
    get_artist_counts_loop (fuel + 1) all offset acc calls =
      (if offset + 100 < all.length then
        get_artist_counts_loop fuel all (offset + 100)
          (processPage acc ((all.drop offset).take 100)) (calls + 1)
      else some (processPage acc ((all.drop offset).take 100), calls + 1)) := rfl

theorem get_artist_counts_loop_eq (fuel : Nat) :
    ∀ (all : List (List String)) (offset : Nat) (acc : Counter) (calls : Nat),
    all.length - offset ≤ fuel * 100 + 100 →
    get_artist_counts_loop (fuel + 1) all offset acc calls =
      some ((all.drop offset).foldl processTrack acc,
        calls + callsFor (all.length - offset)) := by
  induction fuel with
  | zero =>
    intro all offset acc calls hle
    have hnot : ¬ (offset + 100 < all.length) := by omega
    have htake : (all.drop offset).take 100 = all.drop offset := by
      apply List.take_of_length_le
      rw [List.length_drop]
      omega
    have hcalls : callsFor (all.length - offset) = 1 := by
      rw [callsFor]
      rw [dif_neg (by omega)]
    rw [get_artist_counts_loop_succ, if_neg hnot, htake, hcalls]
    rfl
  | succ n ih =>
    intro all offset acc calls hle
    by_cases h : offset + 100 < all.length
    · have hsplit : all.drop offset =
          (all.drop offset).take 100 ++ all.drop (offset + 100) := by
        conv_lhs => rw [← List.take_append_drop 100 (all.drop offset)]
        rw [List.drop_drop]
      have hrec := ih all (offset + 100)
        (processPage acc ((all.drop offset).take 100)) (calls + 1) (by omega)
      have hcalls : callsFor (all.length - offset) =
          1 + callsFor (all.length - (offset + 100)) := by
        rw [callsFor, dif_pos (by omega)]
        have hx : all.length - offset - 100 = all.length - (offset + 100) := by
          omega
        rw [hx]
      rw [get_artist_counts_loop_succ, if_pos h, hrec, hcalls]
      have hpp : processPage acc ((all.drop offset).take 100) =
          List.foldl processTrack acc ((all.drop offset).take 100) := rfl
      have hfold : (all.drop offset).foldl processTrack acc =
          List.foldl processTrack
            (processPage acc ((all.drop offset).take 100))
            (all.drop (offset + 100)) := by
        rw [hpp]
        conv_lhs => rw [hsplit]
        rw [List.foldl_append]
      rw [hfold, ← Nat.add_assoc]
    · have htake : (all.drop offset).take 100 = all.drop offset := by
        apply List.take_of_length_le
        rw [List.length_drop]
        omega
      have hcalls : callsFor (all.length - offset) = 1 := by
        rw [callsFor]
        rw [dif_neg (by omega)]
      rw [get_artist_counts_loop_succ, if_neg h, htake, hcalls]
      rfl

theorem get_artist_counts_eq (all : List (List String)) :
    get_artist_counts all =
      some (all.foldl processTrack [], callsFor all.length) := by
  have hmod := Nat.div_add_mod all.length 100
  have hlt : all.length % 100 < 100 := Nat.mod_lt _ (by norm_num)
  have h := get_artist_counts_loop_eq (all.length / 100) all 0 [] 0 (by omega)
  simpa using h

theorem callsFor_eq (d : Nat) : callsFor d = max 1 ((d + 99) / 100) := by
  induction d using Nat.strong_induction_on with
  | _ d ih =>
    by_cases h : 100 < d
    · rw [callsFor, dif_pos h, ih (d - 100) (by omega)]
      omega
    · rw [callsFor, dif_neg h]
      omega

theorem foldl_chunksOfAux (step : Counter → String → Counter) :
    ∀ (fuel : Nat) (l : List String) (g : Counter), l.length ≤ fuel →
    (chunksOfAux fuel l).foldl (fun acc batch => batch.foldl step acc) g =
      l.foldl step g := by
  intro fuel
  induction fuel with
  | zero =>
    intro l g hle
    have : l = [] := List.length_eq_zero.1 (by omega)
    subst this
    rfl
  | succ n ih =>
    intro l g hle
    cases l with
    | nil => rfl
    | cons x xs =>
      have hlen : ((x :: xs).drop 50).length ≤ n := by
        simp only [List.length_drop, List.length_cons]
        simp only [List.length_cons] at hle
        omega
      simp only [chunksOfAux, List.foldl_cons]
      rw [ih ((x :: xs).drop 50) _ hlen]
      rw [← List.foldl_append]
      rw [List.take_append_drop]
      rw [List.foldl_cons]

theorem foldl_chunksOf (step : Counter → String → Counter) (l : List String)
    (g : Counter) :
    (chunksOf l).foldl (fun acc batch => batch.foldl step acc) g =
      l.foldl step g :=
  foldl_chunksOfAux step l.length l g le_rfl

theorem cLookup_genre_inner (m : Nat) (y : String) :
    ∀ (l : List String) (g : Counter),
    cLookup (l.foldl (fun g3 genre => bumpBy g3 genre m) g) y =
      cLookup g y + l.count y * m := by
  intro l
  induction l with
  | nil => intro g; simp
  | cons x xs ih =>
    intro g
    simp only [List.foldl_cons]
    rw [ih, cLookup_bumpBy, List.count_cons]
    by_cases h : x = y
    · subst h
      simp only [if_pos rfl, beq_self_eq_true, if_true]
      ring
    · have hb : (x == y) = false := by simp [h]
      simp [h, hb]

theorem cLookup_genre_fold (details : String → List String) (artists : Counter)
    (y : String) :
    ∀ (ids : List String) (g : Counter),
    cLookup (ids.foldl
        (fun g2 aid => (details aid).foldl
          (fun g3 genre => bumpBy g3 genre (cLookup artists aid)) g2) g) y =
      cLookup g y +
        (ids.map (fun aid => (details aid).count y * cLookup artists aid)).sum := by
  intro ids
  induction ids with
  | nil => intro g; simp
  | cons aid rest ih =>
    intro g
    simp only [List.foldl_cons, List.map_cons, List.sum_cons]
    rw [ih, cLookup_genre_inner]
    omega

theorem cLookup_get_genre_counts (details : String → List String)
    (artists : Counter) (y : String) :
    cLookup (get_genre_counts details artists) y =
      ((artists.map Prod.fst).map
        (fun aid => (details aid).count y * cLookup artists aid)).sum := by
  unfold get_genre_counts
  rw [foldl_chunksOf
    (fun g2 aid => (details aid).foldl
      (fun g3 genre => bumpBy g3 genre (cLookup artists aid)) g2)
    (artists.map Prod.fst) []]
  rw [cLookup_genre_fold]
  simp [cLookup]

/-- C7: artist counting increments once per (track, artist) pair; genre
folding adds each artist's play-count to every genre tag of that artist, an
artist with zero genre tags contributing nothing; and the concrete 3-track
scenario (tracks A and B by artist X with genres pop and rock, track C by
artist Y with genre jazz) yields artist counts X:2 Y:1, genre counts pop:2
rock:2 jazz:1, and track total 3. -/
theorem C7_aggregation_counts :
    (∀ (all : List (List String)) (a : String),
      (get_artist_counts all).map (fun r => cLookup r.1 a) =
        some ((all.map (fun t => t.count a)).sum))
    ∧ (∀ (details : String → List String) (artists : Counter) (y : String),
        cLookup (get_genre_counts details artists) y =
          ((artists.map Prod.fst).map
            (fun aid => (details aid).count y * cLookup artists aid)).sum)
    ∧ (∀ (details : String → List String) (artists : Counter) (y : String),
        (∀ aid ∈ artists.map Prod.fst, details aid = []) →
        cLookup (get_genre_counts details artists) y = 0)
    ∧ get_combined_genres
        (fun aid => if aid = "X" then ["pop", "rock"]
          else if aid = "Y" then ["jazz"] else []) [["X"], ["X"], ["Y"]] =
        some ([("pop", 2), ("rock", 2), ("jazz", 1)], 3)
    ∧ get_artist_counts [["X"], ["X"], ["Y"]] =
        some ([("X", 2), ("Y", 1)], 1) := by
  refine ⟨?_, ?_, ?_, rfl, rfl⟩
  · intro all a
    rw [get_artist_counts_eq]
    have h := cLookup_processPage [] all a
    simp only [processPage] at h
    simp only [Option.map, h, cLookup, Nat.zero_add]
  · intro details artists y
    exact cLookup_get_genre_counts details artists y
  · intro details artists y hz
    rw [cLookup_get_genre_counts]
    have : ∀ aid ∈ artists.map Prod.fst,
        (details aid).count y * cLookup artists aid = 0 := by
      intro aid hm
      rw [hz aid hm]
      simp
    rw [List.map_congr_left this]
    apply List.sum_eq_zero
    intro x hx
    rcases List.mem_map.1 hx with ⟨a, ha, rfl⟩
    rfl

/-- Witness for C7 at a concrete zero-genre artist table. -/
theorem C7_aggregation_counts_witness :
    cLookup (get_genre_counts (fun _ => []) [("Z", 5)]) "pop" = 0 :=
  C7_aggregation_counts.2.2.1 (fun _ => []) [("Z", 5)] "pop" (fun _ _ => rfl)

/-- C8 (counterexample): the claim says the aggregator issues exactly
ceil(total/100) listing calls for every correctly-signalling source.  On the
empty playlist the loop still issues its first call before seeing the absent
next-page signal: 1 call, while ceil(0/100) = 0. -/
theorem C8_pagination_counterexample :
    get_artist_counts ([] : List (List String)) = some ([], 1)
    ∧ (List.length ([] : List (List String)) + 99) / 100 = 0 :=
  ⟨rfl, rfl⟩

/-- C8 (amended): for every paginated source (pages are 100-track slices
whose next signal is present exactly while further tracks remain), the loop
terminates with the fold of all pages, the total artist count equals the
number of (track, artist) pairs across all pages, and the number of listing
calls is max 1 (ceil(total/100)) — the ceiling, except that the empty
playlist still costs one call. -/
theorem C8_pagination_amended (all : List (List String)) :
    get_artist_counts all =
      some (all.foldl processTrack [], max 1 ((all.length + 99) / 100))
    ∧ counterTotal (all.foldl processTrack []) = (all.map List.length).sum := by
  constructor
  · rw [get_artist_counts_eq, callsFor_eq]
  · have h := counterTotal_processPage [] all
    simp only [processPage] at h
    simpa [counterTotal] using h
